import Mathlib

/-!
# PromptFoundry store — verification of the specification against the code

This file gives a shallow embedding, in Lean 4, of the parts of the
`promptfoundry-store` repository that the specification's testable claims are
about, and proves (or refutes) each claim against that embedding.

Embedded components:

* the license service (`src/promptfoundry-api/server.js`, and the older copy
  of the same server in `src/unnamed/part_001`): the `GET /api/license/verify`
  endpoint, the `createOrUpdateLicense` / `upsertCustomer` store operations and
  the `POST /api/stripe/webhook` dispatcher;
* the catalog validator (first file of `src/unnamed/part_002`): JSON record
  coercion, the empty-record filter, `uniqBy` deduplication and the
  category/title sort;
* the catalog builder (second file of `src/unnamed/part_002`): the
  merge–dedup–sort pipeline over the previous snapshot.

Modelling conventions:

* External services (Supabase, Stripe, Resend) are modelled by explicit state:
  the relational store is a pair of lists of rows, a store query error is an
  injected `Option String` parameter, Stripe's signature check
  (`stripe.webhooks.constructEvent`, which lives in the Stripe library, not in
  this repository) is modelled by an `Except` parameter carrying either the
  parsed event or the thrown error, and random token/id generation is passed
  in as explicit fresh values.
* JavaScript strings are Lean `String`s; `localeCompare` is modelled as
  code-point comparison returning `-1/0/1`, and `toLowerCase` as per-character
  lowering — all properties proved below depend only on these being a total
  preorder, resp. a function on strings that distributes over concatenation.
* JSON numbers are modelled as `Int`; every claim below depends only on their
  linear order and on `Number.isFinite` being true for parsed JSON numbers.
* JavaScript's stable `Array.prototype.sort` is modelled by Mathlib's stable
  `List.insertionSort` (any stable sort computes the same function).
* Timestamp conversion (`new Date(… * 1000).toISOString()`) is not modelled;
  the stored `current_period_end` is the already-converted opaque string.
-/

namespace PFStore

/-! ## JavaScript value model -/

/-- JSON values, as produced by `JSON.parse`: the element type of the catalog
snapshot file. (JavaScript `undefined` is represented by the absence of a
field, i.e. by `Option.none` at use sites.) -/
inductive Json where
  | null : Json
  | bool (b : Bool) : Json
  | num (n : Int) : Json
  | str (s : String) : Json
  | arr (elems : List Json) : Json
  | obj (fields : List (String × Json)) : Json

/-- JavaScript truthiness of a JSON value (`NaN` cannot be produced by
`JSON.parse`, so `num` is falsy exactly at `0`). -/
def jsTruthy : Json → Bool
  | .null => false
  | .bool b => b
  | .num n => n != 0
  | .str s => !s.isEmpty
  | .arr _ => true
  | .obj _ => true

mutual

/-- JavaScript `String(v)` coercion of a JSON value. Arrays stringify as the
comma-join of their elements (`Array.prototype.toString`), objects as
`"[object Object]"`. -/
def jsToString : Json → String
  | .null => "null"
  | .bool b => if b then "true" else "false"
  | .num n => toString n
  | .str s => s
  | .arr xs => String.intercalate "," (jsToStringElems xs)
  | .obj _ => "[object Object]"

/-- Stringification of array elements for `Array.prototype.join`: a `null`
element contributes the empty string, every other element its `String(·)`
coercion. -/
def jsToStringElems : List Json → List String
  | [] => []
  | .null :: xs => "" :: jsToStringElems xs
  | x :: xs => jsToString x :: jsToStringElems xs

end

/-- Property read `v.k` on a JSON value that is known not to be `null`
(JavaScript property access on `null` throws; callers model that case
separately). A duplicate key in a JSON text resolves to its last occurrence,
and non-objects have none of the catalog fields. -/
def Json.getField : Json → String → Option Json
  | .obj kvs, k => ((kvs.filter (fun p => p.1 == k)).getLast?).map Prod.snd
  | _, _ => none

/-- JavaScript `it.k || d` followed by `String(·)`, for a string default `d`:
the coerced field if the field is present and truthy, otherwise `d`. -/
def fieldOr (it : Json) (k : String) (d : String) : String :=
  match it.getField k with
  | some v => if jsTruthy v then jsToString v else d
  | none => d

/-- Characters removed by JavaScript `String.prototype.trim` (ASCII whitespace
and line terminators; the exotic Unicode space characters are irrelevant to
every property proved here). -/
def jsIsWS (c : Char) : Bool :=
  c == ' ' || c == '\t' || c == '\n' || c == '\r' || c == '\x0b' || c == '\x0c'

/-- JavaScript `s.trim()`: strip leading and trailing whitespace. -/
def jsTrim (s : String) : String :=
  ⟨(((s.data.dropWhile jsIsWS).reverse.dropWhile jsIsWS).reverse)⟩

/-- JavaScript `s.toLowerCase()`, modelled as per-character lowering. -/
def jsToLower (s : String) : String :=
  ⟨s.data.map Char.toLower⟩

/-- JavaScript `s || ""` for a string operand: the identity on strings (the
empty string is falsy and is replaced by `""`, i.e. by itself). -/
def jsOrEmpty (s : String) : String :=
  if s.isEmpty then "" else s

/-- JavaScript `n || 0` for a (non-`NaN`) number operand: the identity. -/
def jsOrZero (n : Int) : Int :=
  if n == 0 then 0 else n

/-- Model of `a.localeCompare(b)` as a sign value, using code-point order as
the collation. Every property proved below depends only on the induced
relation being a total preorder. -/
def strCmp (a b : String) : Int :=
  if a < b then -1 else if b < a then 1 else 0

/-! ## License service: data model (`server.js`) -/

/-- A row of the `customers` table (upserted with `onConflict: "email"`). -/
structure Customer where
  id : Nat
  email : String
  stripe_customer_id : String
deriving DecidableEq

/-- A row of the `licenses` table. -/
structure License where
  id : Nat
  customer_id : Nat
  token : String
  status : String
  current_period_end : String
  stripe_subscription_id : String
  tier : String
  session_id : String
deriving DecidableEq

/-- The external relational store: the two tables the service touches. -/
structure Store where
  customers : List Customer
  licenses : List License
deriving DecidableEq

/-- Supabase `.maybeSingle()`: `none` for zero rows, the row for one row, and
a thrown error for more than one row. -/
def maybeSingle : List α → Except String (Option α)
  | [] => .ok none
  | [x] => .ok (some x)
  | _ => .error "more than one row returned"

/-- A store read that can also fail for external reasons (network, permission):
the injected `dbErr` models the `error` field of the Supabase response. -/
def dbMaybeSingle (dbErr : Option String) (rows : List α) : Except String (Option α) :=
  match dbErr with
  | some e => .error e
  | none => maybeSingle rows

/-- `supabase.from("licenses").select(…).eq("token", token)`. -/
def licensesByToken (ls : List License) (t : String) : List License :=
  ls.filter (fun l => l.token == t)

/-- `supabase.from("licenses").select(…).eq("stripe_subscription_id", sid)`. -/
def licensesBySub (ls : List License) (sid : String) : List License :=
  ls.filter (fun l => l.stripe_subscription_id == sid)

/-- Number of license rows for one external subscription reference. -/
def countSub (ls : List License) (sid : String) : Nat :=
  (licensesBySub ls sid).length

/-- The at-most-one-License-per-subscription-reference invariant (§3 of the
spec). -/
def LicensesInv (ls : List License) : Prop :=
  ∀ sid, countSub ls sid ≤ 1

/-! ## License service: verify endpoint -/

/-- `server.js:177` — the statuses treated as entitled. -/
def entitledStatuses : List String :=
  ["active", "trialing", "past_due"]

/-- An HTTP response of `GET /api/license/verify`: status code plus the JSON
body fields that the handler can emit (`error`, `tier`,
`current_period_end` are absent in some branches, hence `Option`). -/
structure VerifyResp where
  status : Nat
  ok : Bool
  error : Option String
  tier : Option String
  current_period_end : Option String
deriving DecidableEq

/-- `GET /api/license/verify` of `src/promptfoundry-api/server.js:167-179`.
`tokenQ` is `req.query.token` (`none` = absent; the empty string is falsy for
the `if (!token)` test). `dbErr` injects a store failure. -/
def verifyFound (data : License) : VerifyResp :=
  let active := entitledStatuses.contains data.status
  ⟨200, active, none, some data.tier, some data.current_period_end⟩

def verifyHandler (ls : List License) (dbErr : Option String) :
    Option String → VerifyResp
  | none => ⟨400, false, some "token required", none, none⟩
  | some token =>
    if token.isEmpty then ⟨400, false, some "token required", none, none⟩
    else
      match dbMaybeSingle dbErr (licensesByToken ls token) with
      | .error e => ⟨500, false, some e, none, none⟩
      | .ok none => ⟨200, false, none, none, none⟩
      | .ok (some data) => verifyFound data

/-- `GET /api/license/verify` of the second server copy
(`src/unnamed/part_001:204-219`); identical except that the entitlement test
is written as an explicit three-way disjunction. -/
def verifyFoundAlt (data : License) : VerifyResp :=
  let active := data.status == "active" || data.status == "trialing" ||
    data.status == "past_due"
  ⟨200, active, none, some data.tier, some data.current_period_end⟩

def verifyHandlerAlt (ls : List License) (dbErr : Option String) :
    Option String → VerifyResp
  | none => ⟨400, false, some "token required", none, none⟩
  | some token =>
    if token.isEmpty then ⟨400, false, some "token required", none, none⟩
    else
      match dbMaybeSingle dbErr (licensesByToken ls token) with
      | .error e => ⟨500, false, some e, none, none⟩
      | .ok none => ⟨200, false, none, none, none⟩
      | .ok (some data) => verifyFoundAlt data

/-- `req.query.token` missing for the purpose of the `if (!token)` guard. -/
def tokenMissing : Option String → Prop
  | none => True
  | some s => s = ""

/-- The store lookup of the verify handler fails: an injected store error, or
`.maybeSingle()` finding more than one row for the token. -/
def lookupFails (ls : List License) (dbErr : Option String) : Option String → Prop
  | none => False
  | some t => dbErr ≠ none ∨ 2 ≤ (licensesByToken ls t).length

/-! ## License service: webhook store operations -/

/-- Column values passed to `createOrUpdateLicense` by the
`checkout.session.completed` branch. -/
structure LicenseArgs where
  customer_id : Nat
  stripe_subscription_id : String
  status : String
  current_period_end : String
  session_id : String
deriving DecidableEq

/-- `createOrUpdateLicense` (`server.js:58-93`): look up the license by
subscription reference with `.maybeSingle()`; if found, update only
`status`, `current_period_end` and `session_id` on that row; otherwise insert
a new row with a freshly generated token and tier `"all-access"`. The random
`licenseToken()` value and the database-assigned row id are passed in as
`freshToken` / `freshId`. -/
def createOrUpdateLicense (ls : List License) (a : LicenseArgs)
    (freshToken : String) (freshId : Nat) : Except String (List License × License) :=
  match maybeSingle (licensesBySub ls a.stripe_subscription_id) with
  | .error e => .error e
  | .ok (some existing) =>
    let updated : License :=
      { existing with
        status := a.status
        current_period_end := a.current_period_end
        session_id := a.session_id }
    .ok (ls.map (fun l =>
      if l.id == existing.id then
        { l with
          status := a.status
          current_period_end := a.current_period_end
          session_id := a.session_id }
      else l), updated)
  | .ok none =>
    let lic : License :=
      ⟨freshId, a.customer_id, freshToken, a.status, a.current_period_end,
        a.stripe_subscription_id, "all-access", a.session_id⟩
    .ok (ls ++ [lic], lic)

/-- `upsertCustomer` (`server.js:48-56`): upsert keyed on `email`. -/
def upsertCustomer (cs : List Customer) (email scid : String) (freshId : Nat) :
    List Customer × Customer :=
  match cs.find? (fun c => c.email == email) with
  | some c =>
    (cs.map (fun x => if x.email == email then { x with stripe_customer_id := scid } else x),
      { c with stripe_customer_id := scid })
  | none =>
    (cs ++ [⟨freshId, email, scid⟩], ⟨freshId, email, scid⟩)

/-- The `customer.subscription.updated/deleted/paused/resumed` branch
(`server.js:218-232`): update `status` and `current_period_end` on every row
matching the subscription reference. -/
def updateBySub (ls : List License) (sid status periodEnd : String) : List License :=
  ls.map (fun l =>
    if l.stripe_subscription_id == sid then
      { l with status := status, current_period_end := periodEnd }
    else l)

/-- The `invoice.payment_failed` branch (`server.js:234-240`): mark the
license `past_due`. -/
def markPastDue (ls : List License) (sid : String) : List License :=
  ls.map (fun l =>
    if l.stripe_subscription_id == sid then { l with status := "past_due" } else l)

/-- A parsed Stripe webhook event, restricted to the data the handler reads.
For `checkout.session.completed` the handler immediately retrieves the
subscription from Stripe; its `status`/`current_period_end` travel with the
event here. The four `customer.subscription.*` case labels share one handler
body, so they share one constructor carrying the event-type suffix. -/
inductive StripeEvent where
  | checkoutSessionCompleted (mode sessionId customer email subId subStatus subPeriodEnd : String)
  | customerSubscription (kind subId status periodEnd : String)
  | invoicePaymentFailed (subscription : Option String)
  | other

/-- Nondeterministic inputs of one webhook delivery: fresh ids, the fresh
random token, and whether the transactional email provider accepts the send. -/
structure Oracle where
  freshCustomerId : Nat
  freshLicenseId : Nat
  freshToken : String
  emailOk : Bool

/-- A record of one attempted transactional email (recipient and the license
token included in the body). -/
structure EmailMsg where
  recipient : String
  token : String
deriving DecidableEq

/-- Result of one webhook delivery: HTTP status, resulting store, attempted
emails. -/
structure WebhookOut where
  status : Nat
  store : Store
  emails : List EmailMsg
deriving DecidableEq

/-- The event dispatch of `POST /api/stripe/webhook` (`server.js:192-248`),
entered only after signature verification succeeded. -/
def handleEvent (st : Store) (ev : StripeEvent) (o : Oracle) : WebhookOut :=
  match ev with
  | .checkoutSessionCompleted mode sessionId customer email subId subStatus subPeriodEnd =>
    if mode != "subscription" then ⟨200, st, []⟩
    else
      let cres := upsertCustomer st.customers email customer o.freshCustomerId
      match createOrUpdateLicense st.licenses
          ⟨cres.2.id, subId, subStatus, subPeriodEnd, sessionId⟩
          o.freshToken o.freshLicenseId with
      | .error _ => ⟨500, ⟨cres.1, st.licenses⟩, []⟩
      | .ok (ls, lic) =>
        if o.emailOk then ⟨200, ⟨cres.1, ls⟩, [⟨email, lic.token⟩]⟩
        else ⟨500, ⟨cres.1, ls⟩, [⟨email, lic.token⟩]⟩
  | .customerSubscription _ subId status periodEnd =>
    ⟨200, ⟨st.customers, updateBySub st.licenses subId status periodEnd⟩, []⟩
  | .invoicePaymentFailed (some sub) =>
    ⟨200, ⟨st.customers, markPastDue st.licenses sub⟩, []⟩
  | .invoicePaymentFailed none => ⟨200, st, []⟩
  | .other => ⟨200, st, []⟩

/-- `POST /api/stripe/webhook` (`server.js:182-249`). `sig` is the outcome of
`stripe.webhooks.constructEvent(req.body, sig, STRIPE_WEBHOOK_SECRET)`: the
parsed event on success, the thrown error message on signature mismatch. On
mismatch the handler returns 400 before touching the store or the mailer. -/
def webhookHandler (sig : Except String StripeEvent) (st : Store) (o : Oracle) : WebhookOut :=
  match sig with
  | .error _ => ⟨400, st, []⟩
  | .ok ev => handleEvent st ev o

/-- Fields of a license row that no webhook-driven update ever changes
(everything except `status`, `current_period_end` and `session_id`):
the relation `frameEq old new` states they carry over from `old` to `new`. -/
def frameEq (l l' : License) : Prop :=
  l'.id = l.id ∧ l'.customer_id = l.customer_id ∧ l'.token = l.token ∧
    l'.stripe_subscription_id = l.stripe_subscription_id ∧ l'.tier = l.tier

/-! ## Catalog: content items and deduplication (`src/unnamed/part_002`) -/

/-- A catalog content item: the field set both the builder emits and the
validator coerces every record to. -/
structure Item where
  id : String
  category : String
  title : String
  tags : List String
  rating : Int
  price : Int
  buyUrl : String
  prompt : String
deriving DecidableEq

/-- The seen-set accumulator shared by the validator's `uniqBy` and the
builder's merge filter: keep an element when its key is not yet in `seen`,
recording kept keys. -/
def uniqByAux (key : α → String) (seen : List String) : List α → List α
  | [] => []
  | x :: xs =>
    if key x ∈ seen then uniqByAux key seen xs
    else x :: uniqByAux key (key x :: seen) xs

/-- `uniqBy` of the validator (and, inlined, step 3 of the builder): first
occurrence per key wins. -/
def uniqBy (key : α → String) (arr : List α) : List α :=
  uniqByAux key [] arr

/-- The seen set after a prefix has been processed (proof helper for
`uniqByAux`; not itself in the source). -/
def seenAfter (key : α → String) (seen : List String) : List α → List String
  | [] => seen
  | x :: xs =>
    if key x ∈ seen then seenAfter key seen xs
    else seenAfter key (key x :: seen) xs

/-- The validator's deduplication key (`part_002:40`):
`(x.title + "::" + x.prompt).toLowerCase()`. -/
def validatorKey (x : Item) : String :=
  jsToLower (x.title ++ "::" ++ x.prompt)

/-- The builder's merge deduplication key (`part_002:178`):
`(it.title||"") + "::" + (it.prompt||"")` — note: no `toLowerCase()`. -/
def builderKey (it : Item) : String :=
  jsOrEmpty it.title ++ "::" ++ jsOrEmpty it.prompt

/-- The validator's sort comparator (`part_002:43-46`):
`localeCompare(category) || localeCompare(title)`. -/
def validatorCmp (a b : Item) : Int :=
  let c := strCmp a.category b.category
  if c != 0 then c else strCmp a.title b.title

/-- The non-strict order induced by `validatorCmp` (a JS comparator sorts `a`
no later than `b` iff it returns a non-positive value). -/
def validatorLe (a b : Item) : Prop :=
  validatorCmp a b ≤ 0

instance : DecidableRel validatorLe :=
  fun a b => inferInstanceAs (Decidable (validatorCmp a b ≤ 0))

/-- The builder's sort comparator (`part_002:185`):
`(b.rating||0)-(a.rating||0) || localeCompare(a.title, b.title)` —
rating descending, then title ascending. -/
def builderCmp (a b : Item) : Int :=
  let d := jsOrZero b.rating - jsOrZero a.rating
  if d != 0 then d else strCmp a.title b.title

/-- The non-strict order induced by `builderCmp`. -/
def builderLe (a b : Item) : Prop :=
  builderCmp a b ≤ 0

instance : DecidableRel builderLe :=
  fun a b => inferInstanceAs (Decidable (builderCmp a b ≤ 0))

/-! ## Catalog validator (first file of `src/unnamed/part_002`) -/

/-- The field set produced by the validator's per-record coercion
(`part_002:27-36`) for the record `it` at array index `i`: string coercion
with defaults for `id`/`category`/`title`, element-wise `String(·)` for
`tags`, finite-number pass-through with defaults for `rating`/`price`, and
coerce-then-trim for `buyUrl`/`prompt`. -/
def cleanFields (i : Nat) (it : Json) : Item :=
  { id := fieldOr it "id" ("id-" ++ toString i)
    category := fieldOr it "category" "General"
    title := fieldOr it "title" "Untitled"
    tags := match it.getField "tags" with
      | some (.arr xs) => xs.map jsToString
      | _ => []
    rating := match it.getField "rating" with
      | some (.num n) => n
      | _ => 5
    price := match it.getField "price" with
      | some (.num n) => n
      | _ => 99
    buyUrl := jsTrim (fieldOr it "buyUrl" "")
    prompt := jsTrim (fieldOr it "prompt" "") }

/-- The per-record coercion of the validator, applied to record `it` at array
index `i`. Property access on a `null` record throws a `TypeError` (aborting
the whole run), modelled by `none`. -/
def cleanRecord (i : Nat) (it : Json) : Option Item :=
  match it with
  | .null => none
  | _ => some (cleanFields i it)

/-- `data.map((it, i) => …)` over the parsed snapshot, with the JS array
index threaded through; `none` if any record coercion throws. -/
def cleanAll : Nat → List Json → Option (List Item)
  | _, [] => some []
  | i, x :: xs => do
    let r ← cleanRecord i x
    let rs ← cleanAll (i + 1) xs
    pure (r :: rs)

/-- The validator's keep-filter (`part_002:39`): `x.title && x.prompt`
(JavaScript string truthiness = non-emptiness). -/
def goodItem (x : Item) : Bool :=
  !x.title.isEmpty && !x.prompt.isEmpty

/-- The whole validator pipeline on the parsed record array
(`part_002:27-48`): coerce with defaults, drop empty records, dedup by the
case-insensitive key, sort by category then title. `none` models the run
aborting with a thrown error. -/
def validatorPipeline (data : List Json) : Option (List Item) :=
  (cleanAll 0 data).map fun cleaned =>
    List.insertionSort validatorLe (uniqBy validatorKey (cleaned.filter goodItem))

/-- Top-level shape handling of the validator (`part_002:21-24`): a JSON
array is used as-is, `{items: […]}` unwraps, other non-`null` values give
`[]`; reading `.items` off `null` throws. -/
def dataOf : Json → Option (List Json)
  | .arr xs => some xs
  | .null => none
  | .obj kvs => match Json.getField (.obj kvs) "items" with
    | some (.arr xs) => some xs
    | _ => some []
  | _ => some []

/-- The serialization of an output item back to JSON
(`JSON.stringify` / `JSON.parse` round trip between runs). -/
def itemToJson (r : Item) : Json :=
  .obj [("id", .str r.id), ("category", .str r.category), ("title", .str r.title),
    ("tags", .arr (r.tags.map .str)), ("rating", .num r.rating),
    ("price", .num r.price), ("buyUrl", .str r.buyUrl), ("prompt", .str r.prompt)]

/-! ## Catalog builder (second file of `src/unnamed/part_002`) -/

/-- Step 3 of the builder (`part_002:175-182`): concatenate the freshly
seeded items, the freshly generated items and the previous snapshot — new
items first, so they win — and keep the first occurrence per
(case-sensitive) `title::prompt` key. -/
def builderMerge (seeded generated prev : List Item) : List Item :=
  uniqBy builderKey (seeded ++ generated ++ prev)

/-- One run of the builder's merge–dedup–sort pipeline (`part_002:175-187`):
`seeded` and `generated` are the deterministic expansion of the fixed
`STARTER` / `OVERLAYS × TEMPLATES × channels` constants (identical on every
run), `prev` is the previous snapshot read from `library.json`; the result is
what `JSON.stringify` writes back. -/
def builderRun (seeded generated prev : List Item) : List Item :=
  List.insertionSort builderLe (builderMerge seeded generated prev)

/-! ## Lemmas: JavaScript string primitives -/

theorem dropWhile_dropWhile (p : α → Bool) (l : List α) :
    (l.dropWhile p).dropWhile p = l.dropWhile p := by
  induction l with
  | nil => rfl
  | cons c t ih =>
    by_cases h : p c
    · simp [List.dropWhile_cons, h, ih]
    · simp [List.dropWhile_cons, h]

theorem dropWhile_eq_self_of_prefix (p : α → Bool) {t u : List α}
    (hu : u.dropWhile p = u) (ht : t <+: u) : t.dropWhile p = t := by
  cases t with
  | nil => rfl
  | cons c t' =>
    obtain ⟨r, hr⟩ := ht
    subst hr
    by_cases h : p c
    · exfalso
      rw [List.cons_append, List.dropWhile_cons_of_pos h] at hu
      have hlen : ((t' ++ r).dropWhile p).length ≤ (t' ++ r).length :=
        (List.dropWhile_sublist p).length_le
      rw [hu] at hlen
      simp at hlen
    · rw [List.dropWhile_cons_of_neg h]

theorem jsTrim_data (s : String) :
    (jsTrim s).data =
      ((s.data.dropWhile jsIsWS).reverse.dropWhile jsIsWS).reverse := rfl

theorem trim_list_idem (p : α → Bool) (l : List α) :
    ((((((l.dropWhile p).reverse.dropWhile p).reverse.dropWhile p).reverse.dropWhile
        p).reverse)) =
      ((l.dropWhile p).reverse.dropWhile p).reverse := by
  set u := l.dropWhile p with hu_def
  have hu : u.dropWhile p = u := dropWhile_dropWhile p l
  set t := (u.reverse.dropWhile p).reverse with ht_def
  have hrev : t.reverse = u.reverse.dropWhile p := by
    rw [ht_def, List.reverse_reverse]
  have htu : t <+: u := by
    rw [← List.reverse_suffix, hrev]
    exact List.dropWhile_suffix p
  have hts : t.dropWhile p = t := dropWhile_eq_self_of_prefix p hu htu
  calc ((t.dropWhile p).reverse.dropWhile p).reverse
      = (t.reverse.dropWhile p).reverse := by rw [hts]
    _ = ((u.reverse.dropWhile p).dropWhile p).reverse := by rw [hrev]
    _ = (u.reverse.dropWhile p).reverse := by rw [dropWhile_dropWhile]
    _ = t := rfl

theorem jsTrim_idem (s : String) : jsTrim (jsTrim s) = jsTrim s := by
  apply String.ext
  rw [jsTrim_data, jsTrim_data]
  exact trim_list_idem jsIsWS s.data

theorem jsToLower_append (a b : String) :
    jsToLower (a ++ b) = jsToLower a ++ jsToLower b := by
  apply String.ext
  simp [jsToLower]

theorem jsOrEmpty_eq (s : String) : jsOrEmpty s = s := by
  unfold jsOrEmpty
  by_cases h : s.isEmpty
  · rw [if_pos h, (String.isEmpty_iff s).mp h]
  · rw [if_neg h]

theorem jsOrZero_eq (n : Int) : jsOrZero n = n := by
  unfold jsOrZero
  by_cases h : n = 0
  · simp [h]
  · simp [h]

/-! ## Lemmas: `localeCompare` model and the two sort comparators -/

theorem strCmp_nonpos {a b : String} : strCmp a b ≤ 0 ↔ a ≤ b := by
  unfold strCmp
  rcases lt_trichotomy a b with h | h | h
  · simp [h, le_of_lt h]
  · simp [h]
  · simp [h, not_lt_of_lt h, not_le_of_lt h]

theorem strCmp_eq_zero {a b : String} : strCmp a b = 0 ↔ a = b := by
  unfold strCmp
  rcases lt_trichotomy a b with h | h | h
  · simp [h, ne_of_lt h]
  · simp [h]
  · simp [h, not_lt_of_lt h, (ne_of_lt h).symm]

theorem validatorLe_iff {a b : Item} :
    validatorLe a b ↔
      a.category < b.category ∨ (a.category = b.category ∧ a.title ≤ b.title) := by
  unfold validatorLe validatorCmp
  by_cases h : strCmp a.category b.category = 0
  · have hc : a.category = b.category := strCmp_eq_zero.mp h
    simp only [h]
    simp [strCmp_nonpos, hc, lt_irrefl]
  · simp only [h]
    have hne : a.category ≠ b.category := fun he => h (strCmp_eq_zero.mpr he)
    simp only [bne_iff_ne, ne_eq, h, not_false_eq_true, if_true]
    rw [strCmp_nonpos]
    constructor
    · intro hle
      exact Or.inl (lt_of_le_of_ne hle hne)
    · rintro (hlt | ⟨he, _⟩)
      · exact le_of_lt hlt
      · exact absurd he hne

theorem builderLe_iff {a b : Item} :
    builderLe a b ↔
      b.rating < a.rating ∨ (a.rating = b.rating ∧ a.title ≤ b.title) := by
  unfold builderLe builderCmp
  rw [jsOrZero_eq, jsOrZero_eq]
  by_cases h : b.rating - a.rating = 0
  · have hr : a.rating = b.rating := by omega
    simp only [h]
    simp [strCmp_nonpos, hr, lt_irrefl]
  · simp only [bne_iff_ne, ne_eq, h, not_false_eq_true, if_true]
    constructor
    · intro hle
      exact Or.inl (by omega)
    · rintro (hlt | ⟨he, _⟩)
      · omega
      · omega

theorem validatorLe_total (a b : Item) : validatorLe a b ∨ validatorLe b a := by
  rw [validatorLe_iff, validatorLe_iff]
  rcases lt_trichotomy a.category b.category with h | h | h
  · exact Or.inl (Or.inl h)
  · rcases le_total a.title b.title with ht | ht
    · exact Or.inl (Or.inr ⟨h, ht⟩)
    · exact Or.inr (Or.inr ⟨h.symm, ht⟩)
  · exact Or.inr (Or.inl h)

theorem validatorLe_trans (a b c : Item) :
    validatorLe a b → validatorLe b c → validatorLe a c := by
  rw [validatorLe_iff, validatorLe_iff, validatorLe_iff]
  rintro (h₁ | ⟨h₁, t₁⟩) (h₂ | ⟨h₂, t₂⟩)
  · exact Or.inl (lt_trans h₁ h₂)
  · exact Or.inl (h₂ ▸ h₁)
  · exact Or.inl (h₁ ▸ h₂)
  · exact Or.inr ⟨h₁.trans h₂, le_trans t₁ t₂⟩

theorem builderLe_total (a b : Item) : builderLe a b ∨ builderLe b a := by
  rw [builderLe_iff, builderLe_iff]
  rcases lt_trichotomy a.rating b.rating with h | h | h
  · exact Or.inr (Or.inl h)
  · rcases le_total a.title b.title with ht | ht
    · exact Or.inl (Or.inr ⟨h, ht⟩)
    · exact Or.inr (Or.inr ⟨h.symm, ht⟩)
  · exact Or.inl (Or.inl h)

theorem builderLe_trans (a b c : Item) :
    builderLe a b → builderLe b c → builderLe a c := by
  rw [builderLe_iff, builderLe_iff, builderLe_iff]
  rintro (h₁ | ⟨h₁, t₁⟩) (h₂ | ⟨h₂, t₂⟩)
  · exact Or.inl (lt_trans h₂ h₁)
  · exact Or.inl (h₂ ▸ h₁)
  · exact Or.inl (h₁ ▸ h₂)
  · exact Or.inr ⟨h₁.trans h₂, le_trans t₁ t₂⟩

/-! ## Lemmas: first-occurrence deduplication (`uniqBy`) -/

theorem mem_seenAfter {key : α → String} {seen : List String} {a : String}
    (h : a ∈ seen) : ∀ l : List α, a ∈ seenAfter key seen l := by
  intro l
  induction l generalizing seen with
  | nil => exact h
  | cons x xs ih =>
    unfold seenAfter
    by_cases hx : key x ∈ seen
    · rw [if_pos hx]; exact ih h
    · rw [if_neg hx]; exact ih (List.mem_cons_of_mem _ h)

theorem uniqByAux_append (key : α → String) (seen : List String) (a b : List α) :
    uniqByAux key seen (a ++ b) =
      uniqByAux key seen a ++ uniqByAux key (seenAfter key seen a) b := by
  induction a generalizing seen with
  | nil => rfl
  | cons x xs ih =>
    rw [List.cons_append]
    show (if key x ∈ seen then uniqByAux key seen (xs ++ b)
        else x :: uniqByAux key (key x :: seen) (xs ++ b)) =
      (if key x ∈ seen then uniqByAux key seen xs
        else x :: uniqByAux key (key x :: seen) xs) ++
        uniqByAux key (if key x ∈ seen then seenAfter key seen xs
          else seenAfter key (key x :: seen) xs) b
    by_cases hx : key x ∈ seen
    · rw [if_pos hx, if_pos hx, if_pos hx]
      exact ih seen
    · rw [if_neg hx, if_neg hx, if_neg hx, List.cons_append, ih]

theorem mem_of_mem_uniqByAux {key : α → String} {seen : List String} {x : α} :
    ∀ {l : List α}, x ∈ uniqByAux key seen l → x ∈ l := by
  intro l
  induction l generalizing seen with
  | nil => intro h; exact absurd h (List.not_mem_nil x)
  | cons y ys ih =>
    unfold uniqByAux
    by_cases hy : key y ∈ seen
    · rw [if_pos hy]
      intro h
      exact List.mem_cons_of_mem _ (ih h)
    · rw [if_neg hy]
      intro h
      rcases List.mem_cons.mp h with h | h
      · exact h ▸ List.mem_cons_self _ _
      · exact List.mem_cons_of_mem _ (ih h)

theorem key_mem_seenAfter_of_mem_uniqByAux {key : α → String} {seen : List String} {x : α} :
    ∀ {l : List α}, x ∈ uniqByAux key seen l → key x ∈ seenAfter key seen l := by
  intro l
  induction l generalizing seen with
  | nil => intro h; exact absurd h (List.not_mem_nil x)
  | cons y ys ih =>
    unfold uniqByAux seenAfter
    by_cases hy : key y ∈ seen
    · rw [if_pos hy, if_pos hy]
      exact ih
    · rw [if_neg hy, if_neg hy]
      intro h
      rcases List.mem_cons.mp h with h | h
      · exact h ▸ mem_seenAfter (List.mem_cons_self _ _) ys
      · exact ih h

theorem key_not_mem_seen_of_mem_uniqByAux {key : α → String} {seen : List String} {x : α} :
    ∀ {l : List α}, x ∈ uniqByAux key seen l → key x ∉ seen := by
  intro l
  induction l generalizing seen with
  | nil => intro h; exact absurd h (List.not_mem_nil x)
  | cons y ys ih =>
    unfold uniqByAux
    by_cases hy : key y ∈ seen
    · rw [if_pos hy]
      exact ih
    · rw [if_neg hy]
      intro h
      rcases List.mem_cons.mp h with h | h
      · exact h ▸ hy
      · intro hs
        exact ih h (List.mem_cons_of_mem _ hs)

theorem nodup_keys_uniqByAux (key : α → String) (seen : List String) :
    ∀ l : List α, ((uniqByAux key seen l).map key).Nodup := by
  intro l
  induction l generalizing seen with
  | nil => exact List.nodup_nil
  | cons y ys ih =>
    unfold uniqByAux
    by_cases hy : key y ∈ seen
    · rw [if_pos hy]
      exact ih seen
    · rw [if_neg hy, List.map_cons, List.nodup_cons]
      refine ⟨?_, ih (key y :: seen)⟩
      intro hmem
      obtain ⟨x, hx, hkx⟩ := List.mem_map.mp hmem
      exact key_not_mem_seen_of_mem_uniqByAux hx (hkx ▸ List.mem_cons_self _ _)

theorem uniqByAux_eq_filter {key : α → String} :
    ∀ {l : List α}, (l.map key).Nodup → ∀ seen : List String,
      uniqByAux key seen l = l.filter (fun x => decide (key x ∉ seen)) := by
  intro l
  induction l with
  | nil => intro _ seen; rfl
  | cons y ys ih =>
    intro hnd seen
    rw [List.map_cons, List.nodup_cons] at hnd
    unfold uniqByAux
    by_cases hy : key y ∈ seen
    · rw [if_pos hy, List.filter_cons_of_neg (by simpa using hy), ih hnd.2 seen]
    · rw [if_neg hy, List.filter_cons_of_pos (by simpa using hy), ih hnd.2]
      congr 1
      apply List.filter_congr
      intro x hx
      have hne : key x ≠ key y := by
        intro he
        exact hnd.1 (he ▸ List.mem_map_of_mem key hx)
      simp only [decide_eq_decide, List.mem_cons]
      tauto

theorem uniqBy_eq_self {key : α → String} {l : List α} (h : (l.map key).Nodup) :
    uniqBy key l = l := by
  unfold uniqBy
  rw [uniqByAux_eq_filter h]
  apply List.filter_eq_self.mpr
  intro x _
  simp

theorem exists_key_rep_uniqByAux {key : α → String} {x : α} :
    ∀ {l : List α} {seen : List String}, x ∈ l → key x ∉ seen →
      ∃ y ∈ uniqByAux key seen l, key y = key x := by
  intro l
  induction l with
  | nil => intro seen h _; exact absurd h (List.not_mem_nil x)
  | cons z zs ih =>
    intro seen hmem hns
    unfold uniqByAux
    by_cases hz : key z ∈ seen
    · rw [if_pos hz]
      rcases List.mem_cons.mp hmem with h | h
      · exact absurd (h ▸ hz) hns
      · exact ih h hns
    · rw [if_neg hz]
      by_cases hk : key x = key z
      · exact ⟨z, List.mem_cons_self _ _, hk.symm⟩
      · rcases List.mem_cons.mp hmem with h | h
        · exact absurd (congrArg key h) hk
        · obtain ⟨y, hy, hky⟩ := ih h (by
            intro hc
            rcases List.mem_cons.mp hc with hc | hc
            · exact hk hc
            · exact hns hc)
          exact ⟨y, List.mem_cons_of_mem _ hy, hky⟩

/-! ## Lemmas: the stable sort (`List.insertionSort` as JS `Array.sort`) -/

theorem orderedInsert_of_forall (r : α → α → Prop) [DecidableRel r] {x : α} :
    ∀ {s : List α}, (∀ z ∈ s, r x z) → List.orderedInsert r x s = x :: s := by
  intro s h
  cases s with
  | nil => rfl
  | cons y ys => exact List.orderedInsert_of_le r ys (h y (List.mem_cons_self _ _))

theorem insertionSort_append (r : α → α → Prop) [DecidableRel r] (a b : List α) :
    List.insertionSort r (a ++ b) =
      a.foldr (fun x acc => List.orderedInsert r x acc) (List.insertionSort r b) := by
  induction a with
  | nil => rfl
  | cons x xs ih =>
    rw [List.cons_append, List.insertionSort, ih, List.foldr_cons]

theorem insertionSort_idem (r : α → α → Prop) [DecidableRel r]
    (htot : ∀ a b, r a b ∨ r b a) (htrans : ∀ a b c, r a b → r b c → r a c)
    (l : List α) :
    List.insertionSort r (List.insertionSort r l) = List.insertionSort r l := by
  haveI : IsTotal α r := ⟨htot⟩
  haveI : IsTrans α r := ⟨htrans⟩
  exact (List.sorted_insertionSort r l).insertionSort_eq

theorem insertionSort_append_sort_right (r : α → α → Prop) [DecidableRel r]
    (htot : ∀ a b, r a b ∨ r b a) (htrans : ∀ a b c, r a b → r b c → r a c)
    (a b : List α) :
    List.insertionSort r (a ++ List.insertionSort r b) = List.insertionSort r (a ++ b) := by
  rw [insertionSort_append, insertionSort_append, insertionSort_idem r htot htrans]

theorem filter_orderedInsert (r : α → α → Prop) [DecidableRel r]
    (htrans : ∀ a b c, r a b → r b c → r a c) (p : α → Bool) (x : α) :
    ∀ s : List α, List.Sorted r s →
      (List.orderedInsert r x s).filter p =
        if p x then List.orderedInsert r x (s.filter p) else s.filter p := by
  intro s
  induction s with
  | nil =>
    intro _
    by_cases hx : p x <;> simp [hx, List.filter]
  | cons y ys ih =>
    intro hs
    rw [List.orderedInsert]
    by_cases hxy : r x y
    · rw [if_pos hxy]
      by_cases hx : p x
      · rw [if_pos hx, List.filter_cons_of_pos hx]
        by_cases hy : p y
        · rw [List.filter_cons_of_pos hy, List.orderedInsert, if_pos hxy]
        · have h : ∀ z ∈ ys.filter p, r x z := fun z hz =>
            htrans x y z hxy (List.rel_of_sorted_cons hs z (List.mem_of_mem_filter hz))
          rw [List.filter_cons_of_neg hy, orderedInsert_of_forall r h]
      · rw [if_neg hx, List.filter_cons_of_neg hx]
    · rw [if_neg hxy]
      by_cases hy : p y
      · rw [List.filter_cons_of_pos hy, List.filter_cons_of_pos hy,
          ih hs.of_cons]
        by_cases hx : p x
        · rw [if_pos hx, if_pos hx, List.orderedInsert, if_neg hxy]
        · rw [if_neg hx, if_neg hx]
      · rw [List.filter_cons_of_neg hy, List.filter_cons_of_neg hy, ih hs.of_cons]

theorem filter_insertionSort (r : α → α → Prop) [DecidableRel r]
    (htot : ∀ a b, r a b ∨ r b a) (htrans : ∀ a b c, r a b → r b c → r a c)
    (p : α → Bool) (l : List α) :
    (List.insertionSort r l).filter p = List.insertionSort r (l.filter p) := by
  haveI : IsTotal α r := ⟨htot⟩
  haveI : IsTrans α r := ⟨htrans⟩
  induction l with
  | nil => rfl
  | cons x xs ih =>
    rw [List.insertionSort,
      filter_orderedInsert r htrans p x _ (List.sorted_insertionSort r xs)]
    by_cases hx : p x
    · rw [if_pos hx, List.filter_cons_of_pos hx, List.insertionSort, ih]
    · rw [if_neg hx, List.filter_cons_of_neg hx, ih]

/-- The merge–dedup–sort pipeline is a fixed point on its own output: feeding
the sorted, deduplicated snapshot back in as the previous snapshot (with the
same fresh items in front) reproduces it exactly. Stability of the sort is
essential: the previously surviving items re-enter in sorted order, and the
fresh items re-enter in their original order, so every tie group settles into
the order the first run already produced. -/
theorem sortUniq_fixedpoint (key : α → String) (r : α → α → Prop) [DecidableRel r]
    (htot : ∀ a b, r a b ∨ r b a) (htrans : ∀ a b c, r a b → r b c → r a c)
    (fresh prev : List α) :
    List.insertionSort r
        (uniqBy key (fresh ++ List.insertionSort r (uniqBy key (fresh ++ prev)))) =
      List.insertionSort r (uniqBy key (fresh ++ prev)) := by
  set D := uniqBy key (fresh ++ prev) with hD
  set S := List.insertionSort r D with hS
  have hDsplit : D = uniqByAux key [] fresh ++ uniqByAux key (seenAfter key [] fresh) prev :=
    uniqByAux_append key [] fresh prev
  have hDnodup : (D.map key).Nodup := nodup_keys_uniqByAux key [] (fresh ++ prev)
  have hSnodup : (S.map key).Nodup :=
    (((List.perm_insertionSort r D).map key).nodup_iff).mpr hDnodup
  have hsplit : uniqBy key (fresh ++ S) =
      uniqByAux key [] fresh ++ uniqByAux key (seenAfter key [] fresh) S :=
    uniqByAux_append key [] fresh S
  have hfilterS : uniqByAux key (seenAfter key [] fresh) S =
      S.filter (fun x => decide (key x ∉ seenAfter key [] fresh)) :=
    uniqByAux_eq_filter hSnodup _
  have hfiltersort : S.filter (fun x => decide (key x ∉ seenAfter key [] fresh)) =
      List.insertionSort r (D.filter (fun x => decide (key x ∉ seenAfter key [] fresh))) := by
    rw [hS]
    exact filter_insertionSort r htot htrans _ D
  have hDfilter : D.filter (fun x => decide (key x ∉ seenAfter key [] fresh)) =
      uniqByAux key (seenAfter key [] fresh) prev := by
    rw [hDsplit, List.filter_append]
    have h₁ : (uniqByAux key [] fresh).filter
        (fun x => decide (key x ∉ seenAfter key [] fresh)) = [] := by
      apply List.filter_eq_nil_iff.mpr
      intro x hx
      simp only [decide_not, Bool.not_eq_true', not_not, decide_eq_false_iff_not, not_not]
      exact key_mem_seenAfter_of_mem_uniqByAux hx
    have h₂ : (uniqByAux key (seenAfter key [] fresh) prev).filter
        (fun x => decide (key x ∉ seenAfter key [] fresh)) =
        uniqByAux key (seenAfter key [] fresh) prev := by
      apply List.filter_eq_self.mpr
      intro x hx
      simpa using key_not_mem_seen_of_mem_uniqByAux hx
    rw [h₁, h₂, List.nil_append]
  rw [hsplit, hfilterS, hfiltersort, hDfilter,
    insertionSort_append_sort_right r htot htrans, ← hDsplit]

/-! ## Lemmas: license store operations -/

theorem maybeSingle_nil : maybeSingle ([] : List α) = .ok none := rfl

theorem maybeSingle_singleton (x : α) : maybeSingle [x] = .ok (some x) := rfl

theorem maybeSingle_error_iff (l : List α) :
    (∃ e, maybeSingle l = .error e) ↔ 2 ≤ l.length := by
  match l with
  | [] => simp [maybeSingle]
  | [x] => simp [maybeSingle]
  | x :: y :: rest =>
    simp only [maybeSingle, List.length_cons]
    constructor
    · intro _; omega
    · intro _; exact ⟨"more than one row returned", rfl⟩

theorem countSub_append (ls₁ ls₂ : List License) (sid : String) :
    countSub (ls₁ ++ ls₂) sid = countSub ls₁ sid + countSub ls₂ sid := by
  unfold countSub licensesBySub
  rw [List.filter_append, List.length_append]

theorem countSub_map_of_preserve {f : License → License}
    (hf : ∀ l, (f l).stripe_subscription_id = l.stripe_subscription_id)
    (ls : List License) (sid : String) :
    countSub (ls.map f) sid = countSub ls sid := by
  unfold countSub licensesBySub
  rw [List.filter_map]
  rw [List.length_map]
  congr 1
  apply List.filter_congr
  intro x _
  simp [Function.comp, hf x]

theorem licensesBySub_eq_nil_of_countSub_zero {ls : List License} {sid : String}
    (h : countSub ls sid = 0) : licensesBySub ls sid = [] :=
  List.length_eq_zero.mp h

theorem licensesBySub_singleton_of_countSub_one {ls : List License} {sid : String}
    (h : countSub ls sid = 1) : ∃ l, licensesBySub ls sid = [l] :=
  List.length_eq_one.mp h

theorem maybeSingle_eq_ok_none_iff (l : List α) : maybeSingle l = .ok none ↔ l = [] := by
  match l with
  | [] => simp [maybeSingle]
  | [x] => simp [maybeSingle]
  | x :: y :: rest => simp [maybeSingle]

theorem verifyHandler_found {ls : List License} {t : String} {l : License}
    (ht : ¬t.isEmpty = true) (hfind : licensesByToken ls t = [l]) :
    verifyHandler ls none (some t) = verifyFound l := by
  simp only [verifyHandler, dbMaybeSingle]
  rw [if_neg ht, hfind, maybeSingle_singleton]

/-! ## Claims -/

/-- C1: For every License record, the verify operation returns entitled
exactly when the record's status is one of `active`, `trialing`, `past_due`,
and returns not-entitled for every other status value. -/
theorem C1_verify_entitled_iff_status (ls : List License) (t : String) (l : License)
    (ht : t ≠ "") (hfind : licensesByToken ls t = [l]) :
    (verifyHandler ls none (some t)).status = 200 ∧
      ((verifyHandler ls none (some t)).ok = true ↔
        (l.status = "active" ∨ l.status = "trialing" ∨ l.status = "past_due")) := by
  have hte : ¬t.isEmpty = true := fun h => ht ((String.isEmpty_iff t).mp h)
  rw [verifyHandler_found hte hfind]
  refine ⟨rfl, ?_⟩
  show entitledStatuses.contains l.status = true ↔ _
  simp [entitledStatuses, or_assoc]

/-- Witness for C1 at a concrete store: a license with status `active` is
entitled. -/
theorem C1_witness :
    (verifyHandler [⟨1, 1, "TOK", "active", "2099-01-01", "sub_1", "all-access", "cs_1"⟩]
        none (some "TOK")).status = 200 ∧
      ((verifyHandler [⟨1, 1, "TOK", "active", "2099-01-01", "sub_1", "all-access", "cs_1"⟩]
          none (some "TOK")).ok = true ↔
        ((License.mk 1 1 "TOK" "active" "2099-01-01" "sub_1" "all-access" "cs_1").status =
            "active" ∨
          (License.mk 1 1 "TOK" "active" "2099-01-01" "sub_1" "all-access" "cs_1").status =
            "trialing" ∨
          (License.mk 1 1 "TOK" "active" "2099-01-01" "sub_1" "all-access" "cs_1").status =
            "past_due")) :=
  C1_verify_entitled_iff_status _ "TOK" _ (by decide) rfl

/-- C2: For every token string not present in the store, the verify operation
returns a not-entitled result (`{ok:false}`, HTTP 200) and never an error; it
returns an error response only when the token parameter is missing (400) or
the store lookup fails (500). -/
theorem C2_verify_unknown_token_never_errors :
    (∀ (ls : List License) (t : String), t ≠ "" → licensesByToken ls t = [] →
        verifyHandler ls none (some t) = ⟨200, false, none, none, none⟩) ∧
      ∀ (ls : List License) (dbErr : Option String) (q : Option String),
        ((verifyHandler ls dbErr q).status = 200 ∨ (verifyHandler ls dbErr q).status = 400 ∨
          (verifyHandler ls dbErr q).status = 500) ∧
        ((verifyHandler ls dbErr q).status = 400 ↔ tokenMissing q) ∧
        ((verifyHandler ls dbErr q).status = 500 ↔
          ¬tokenMissing q ∧ lookupFails ls dbErr q) := by
  constructor
  · intro ls t ht hfind
    have hte : ¬t.isEmpty = true := fun h => ht ((String.isEmpty_iff t).mp h)
    simp only [verifyHandler, dbMaybeSingle]
    rw [if_neg hte, hfind, maybeSingle_nil]
  · intro ls dbErr q
    cases q with
    | none =>
      exact ⟨Or.inr (Or.inl rfl), ⟨fun _ => trivial, fun _ => rfl⟩,
        ⟨fun h => by simp [verifyHandler] at h, fun h => absurd trivial h.1⟩⟩
    | some t =>
      by_cases hte : t.isEmpty
      · have ht : t = "" := (String.isEmpty_iff t).mp hte
        have hresp : verifyHandler ls dbErr (some t) =
            ⟨400, false, some "token required", none, none⟩ := by
          simp only [verifyHandler, hte, if_true]
        rw [hresp]
        exact ⟨Or.inr (Or.inl rfl), ⟨fun _ => ht, fun _ => rfl⟩,
          ⟨fun h => by simp at h, fun h => absurd ht h.1⟩⟩
      · have ht : ¬t = "" := fun h => hte (h ▸ rfl)
        cases dbErr with
        | some e =>
          have hresp : verifyHandler ls (some e) (some t) =
              ⟨500, false, some e, none, none⟩ := by
            simp only [verifyHandler, dbMaybeSingle]
            rw [if_neg hte]
          rw [hresp]
          refine ⟨Or.inr (Or.inr rfl), ⟨fun h => by simp at h, fun hm => absurd hm ht⟩,
            ⟨fun _ => ⟨ht, Or.inl (by simp)⟩, fun _ => rfl⟩⟩
        | none =>
          rcases hshape : licensesByToken ls t with - | ⟨x, - | ⟨y, rest⟩⟩
          · have hresp : verifyHandler ls none (some t) = ⟨200, false, none, none, none⟩ := by
              simp only [verifyHandler, dbMaybeSingle]
              rw [if_neg hte, hshape, maybeSingle_nil]
            rw [hresp]
            refine ⟨Or.inl rfl, ⟨fun h => by simp at h, fun hm => absurd hm ht⟩,
              ⟨fun h => by simp at h, ?_⟩⟩
            rintro ⟨-, hor | hlen⟩
            · exact absurd rfl hor
            · rw [hshape] at hlen
              simp at hlen
          · have hresp : verifyHandler ls none (some t) = verifyFound x := by
              simp only [verifyHandler, dbMaybeSingle]
              rw [if_neg hte, hshape, maybeSingle_singleton]
            rw [hresp]
            refine ⟨Or.inl rfl, ⟨fun h => by simp [verifyFound] at h, fun hm => absurd hm ht⟩,
              ⟨fun h => by simp [verifyFound] at h, ?_⟩⟩
            rintro ⟨-, hor | hlen⟩
            · exact absurd rfl hor
            · rw [hshape] at hlen
              simp at hlen
          · have hresp : verifyHandler ls none (some t) =
                ⟨500, false, some "more than one row returned", none, none⟩ := by
              simp only [verifyHandler, dbMaybeSingle]
              rw [if_neg hte, hshape]
              rfl
            rw [hresp]
            refine ⟨Or.inr (Or.inr rfl), ⟨fun h => by simp at h, fun hm => absurd hm ht⟩,
              ⟨fun _ => ⟨ht, Or.inr ?_⟩, fun _ => rfl⟩⟩
            rw [hshape]
            simp only [List.length_cons]
            omega

/-- Witness for C2 (the spec §8 example): verifying the non-existent token
`ABC123-DEADBEEF` against an empty store returns `{ok:false}` with HTTP 200. -/
theorem C2_witness :
    verifyHandler [] none (some "ABC123-DEADBEEF") = ⟨200, false, none, none, none⟩ :=
  C2_verify_unknown_token_never_errors.1 [] "ABC123-DEADBEEF" (by decide) rfl

/-- C8: For every webhook request whose signature fails verification, the
handler returns a 400 authentication error, performs no store write and sends
no email: the store is returned unchanged and the attempted-email list is
empty. -/
theorem C8_webhook_bad_signature_no_state_change (msg : String) (st : Store) (o : Oracle) :
    webhookHandler (.error msg) st o = ⟨400, st, []⟩ := rfl

/-- C9: The two license-service implementations' verify endpoints are
equivalent: for every token query and every store state (including injected
store failures), `server.js` and the `part_001` copy produce the same status
code and the same response body. -/
theorem C9_verify_handlers_equivalent (ls : List License) (dbErr : Option String)
    (q : Option String) : verifyHandler ls dbErr q = verifyHandlerAlt ls dbErr q := by
  cases q with
  | none => rfl
  | some t =>
    simp only [verifyHandler, verifyHandlerAlt]
    by_cases hte : t.isEmpty
    · rw [if_pos hte, if_pos hte]
    · rw [if_neg hte, if_neg hte]
      cases hm : dbMaybeSingle dbErr (licensesByToken ls t) with
      | error e => rfl
      | ok o =>
        cases o with
        | none => rfl
        | some d =>
          show verifyFound d = verifyFoundAlt d
          have hc : entitledStatuses.contains d.status =
              (d.status == "active" || d.status == "trialing" || d.status == "past_due") := by
            simp [entitledStatuses, Bool.or_assoc, Bool.beq_eq_decide_eq]
          simp only [verifyFound, verifyFoundAlt, hc]

theorem createOrUpdateLicense_insert {ls : List License} {a : LicenseArgs} {t : String}
    {i : Nat} (h : licensesBySub ls a.stripe_subscription_id = []) :
    createOrUpdateLicense ls a t i =
      .ok (ls ++ [⟨i, a.customer_id, t, a.status, a.current_period_end,
          a.stripe_subscription_id, "all-access", a.session_id⟩],
        ⟨i, a.customer_id, t, a.status, a.current_period_end,
          a.stripe_subscription_id, "all-access", a.session_id⟩) := by
  unfold createOrUpdateLicense
  rw [h, maybeSingle_nil]

theorem createOrUpdateLicense_update {ls : List License} {a : LicenseArgs} {t : String}
    {i : Nat} {ex : License} (h : licensesBySub ls a.stripe_subscription_id = [ex]) :
    createOrUpdateLicense ls a t i =
      .ok (ls.map (fun l =>
          if l.id == ex.id then
            { l with
              status := a.status
              current_period_end := a.current_period_end
              session_id := a.session_id }
          else l),
        { ex with
          status := a.status
          current_period_end := a.current_period_end
          session_id := a.session_id }) := by
  unfold createOrUpdateLicense
  rw [h, maybeSingle_singleton]

theorem countSub_singleton (l : License) (sid : String) :
    countSub [l] sid = if l.stripe_subscription_id == sid then 1 else 0 := by
  unfold countSub licensesBySub
  by_cases h : (l.stripe_subscription_id == sid) = true <;> simp [h]

theorem createOrUpdateLicense_inv {ls : List License} {a : LicenseArgs} {t : String}
    {i : Nat} {ls' : List License} {lic : License}
    (h : createOrUpdateLicense ls a t i = .ok (ls', lic)) (hinv : LicensesInv ls) :
    LicensesInv ls' := by
  unfold createOrUpdateLicense at h
  rcases hms : maybeSingle (licensesBySub ls a.stripe_subscription_id) with e | o
  · rw [hms] at h
    simp at h
  · rw [hms] at h
    cases o with
    | some ex =>
      simp only [Except.ok.injEq, Prod.mk.injEq] at h
      obtain ⟨hls, -⟩ := h
      subst hls
      intro sid
      rw [countSub_map_of_preserve]
      · exact hinv sid
      · intro l
        by_cases hid : (l.id == ex.id) = true <;> simp [hid]
    | none =>
      simp only [Except.ok.injEq, Prod.mk.injEq] at h
      obtain ⟨hls, -⟩ := h
      subst hls
      have hnil : licensesBySub ls a.stripe_subscription_id = [] :=
        (maybeSingle_eq_ok_none_iff _).mp hms
      have h0 : countSub ls a.stripe_subscription_id = 0 := by
        unfold countSub
        rw [hnil]
        rfl
      intro sid
      rw [countSub_append, countSub_singleton]
      by_cases hs : (a.stripe_subscription_id == sid) = true
      · have hsid : a.stripe_subscription_id = sid := by simpa using hs
        rw [if_pos hs, ← hsid, h0]
      · rw [if_neg hs]
        have := hinv sid
        omega

theorem handleEvent_inv (st : Store) (ev : StripeEvent) (o : Oracle)
    (hinv : LicensesInv st.licenses) : LicensesInv (handleEvent st ev o).store.licenses := by
  cases ev with
  | checkoutSessionCompleted mode sessionId customer email subId subStatus subPeriodEnd =>
    simp only [handleEvent]
    by_cases hmode : (mode != "subscription") = true
    · rw [if_pos hmode]
      exact hinv
    · rw [if_neg hmode]
      rcases hc : createOrUpdateLicense st.licenses
          ⟨(upsertCustomer st.customers email customer o.freshCustomerId).2.id, subId,
            subStatus, subPeriodEnd, sessionId⟩
          o.freshToken o.freshLicenseId with e | ⟨ls', lic⟩
      · exact hinv
      · by_cases he : o.emailOk = true <;>
          simp only [he, if_true, if_false, Bool.false_eq_true] <;>
          exact createOrUpdateLicense_inv hc hinv
  | customerSubscription kind subId status periodEnd =>
    intro sid
    simp only [handleEvent]
    unfold updateBySub
    rw [countSub_map_of_preserve]
    · exact hinv sid
    · intro l
      by_cases hid : (l.stripe_subscription_id == subId) = true <;> simp [hid]
  | invoicePaymentFailed sub =>
    cases sub with
    | none => exact hinv
    | some s =>
      intro sid
      simp only [handleEvent]
      unfold markPastDue
      rw [countSub_map_of_preserve]
      · exact hinv sid
      · intro l
        by_cases hid : (l.stripe_subscription_id == s) = true <;> simp [hid]
  | other => exact hinv

/-- C3: Processing the same subscription-checkout-completed event twice yields
exactly one License record for that subscription reference — the second
processing updates the existing row in place (same row count) instead of
inserting — and the at-most-one-License-per-subscription-reference invariant
is preserved by every webhook operation. -/
theorem C3_webhook_upsert_idempotent :
    (∀ (ls : List License) (a : LicenseArgs) (t₁ : String) (i₁ : Nat) (t₂ : String)
        (i₂ : Nat) (ls₁ : List License) (lic₁ : License) (ls₂ : List License)
        (lic₂ : License),
      countSub ls a.stripe_subscription_id = 0 →
      createOrUpdateLicense ls a t₁ i₁ = .ok (ls₁, lic₁) →
      createOrUpdateLicense ls₁ a t₂ i₂ = .ok (ls₂, lic₂) →
      countSub ls₁ a.stripe_subscription_id = 1 ∧
        countSub ls₂ a.stripe_subscription_id = 1 ∧ ls₂.length = ls₁.length) ∧
      ∀ (sig : Except String StripeEvent) (st : Store) (o : Oracle),
        LicensesInv st.licenses → LicensesInv (webhookHandler sig st o).store.licenses := by
  constructor
  · intro ls a t₁ i₁ t₂ i₂ ls₁ lic₁ ls₂ lic₂ h0 h1 h2
    have hnil := licensesBySub_eq_nil_of_countSub_zero h0
    rw [createOrUpdateLicense_insert hnil] at h1
    simp only [Except.ok.injEq, Prod.mk.injEq] at h1
    obtain ⟨hls₁, -⟩ := h1
    subst hls₁
    have hcount₁ : countSub (ls ++
        [⟨i₁, a.customer_id, t₁, a.status, a.current_period_end,
          a.stripe_subscription_id, "all-access", a.session_id⟩])
        a.stripe_subscription_id = 1 := by
      rw [countSub_append, h0, countSub_singleton]
      simp
    refine ⟨hcount₁, ?_⟩
    obtain ⟨ex, hex⟩ := licensesBySub_singleton_of_countSub_one hcount₁
    rw [createOrUpdateLicense_update hex] at h2
    simp only [Except.ok.injEq, Prod.mk.injEq] at h2
    obtain ⟨hls₂, -⟩ := h2
    subst hls₂
    constructor
    · rw [countSub_map_of_preserve]
      · exact hcount₁
      · intro l
        by_cases hid : (l.id == ex.id) = true <;> simp [hid]
    · rw [List.length_map]
  · intro sig st o hinv
    cases sig with
    | error e => exact hinv
    | ok ev => exact handleEvent_inv st ev o hinv

/-- Witness for C3: replaying one concrete checkout-completed upsert on an
initially empty licenses table leaves exactly one row for `sub_1` after each
of the two runs, with no growth on the second. -/
theorem C3_witness :
    countSub [⟨1, 1, "T1", "active", "2099-01-01", "sub_1", "all-access", "cs_1"⟩]
        (LicenseArgs.mk 1 "sub_1" "active" "2099-01-01" "cs_1").stripe_subscription_id = 1 ∧
      countSub [⟨1, 1, "T1", "active", "2099-01-01", "sub_1", "all-access", "cs_1"⟩]
        (LicenseArgs.mk 1 "sub_1" "active" "2099-01-01" "cs_1").stripe_subscription_id = 1 ∧
      ([⟨1, 1, "T1", "active", "2099-01-01", "sub_1", "all-access", "cs_1"⟩] :
          List License).length =
        ([⟨1, 1, "T1", "active", "2099-01-01", "sub_1", "all-access", "cs_1"⟩] :
          List License).length :=
  C3_webhook_upsert_idempotent.1 [] (LicenseArgs.mk 1 "sub_1" "active" "2099-01-01" "cs_1")
    "T1" 1 "T2" 2 _ _ _ _ rfl rfl rfl

/-- C4: For every License record that already exists for a subscription
reference, any subsequent billing event changes only `status`,
`current_period_end` and `session_id` and leaves the token (and id, customer,
subscription reference and tier) unchanged; a new token is generated only
when no License exists for that subscription reference. -/
theorem C4_token_never_rotated :
    (∀ (ls : List License) (a : LicenseArgs) (t : String) (i : Nat) (ex : License)
        (ls' : List License) (lic : License),
      licensesBySub ls a.stripe_subscription_id = [ex] →
      createOrUpdateLicense ls a t i = .ok (ls', lic) →
      List.Forall₂ frameEq ls ls' ∧ lic.token = ex.token) ∧
      (∀ (ls : List License) (a : LicenseArgs) (t : String) (i : Nat)
          (ls' : List License) (lic : License),
        licensesBySub ls a.stripe_subscription_id = [] →
        createOrUpdateLicense ls a t i = .ok (ls', lic) →
        ls' = ls ++ [lic] ∧ lic.token = t) ∧
      (∀ (ls : List License) (sid status periodEnd : String),
        List.Forall₂ frameEq ls (updateBySub ls sid status periodEnd)) ∧
      ∀ (ls : List License) (sid : String), List.Forall₂ frameEq ls (markPastDue ls sid) := by
  refine ⟨?_, ?_, ?_, ?_⟩
  · intro ls a t i ex ls' lic hfind heq
    rw [createOrUpdateLicense_update hfind] at heq
    simp only [Except.ok.injEq, Prod.mk.injEq] at heq
    obtain ⟨hls, hlic⟩ := heq
    subst hls
    subst hlic
    refine ⟨?_, rfl⟩
    rw [List.forall₂_map_right_iff]
    apply List.forall₂_same.mpr
    intro x _
    by_cases hid : (x.id == ex.id) = true <;> simp [hid, frameEq]
  · intro ls a t i ls' lic hnil heq
    rw [createOrUpdateLicense_insert hnil] at heq
    simp only [Except.ok.injEq, Prod.mk.injEq] at heq
    obtain ⟨hls, hlic⟩ := heq
    subst hlic
    subst hls
    exact ⟨rfl, rfl⟩
  · intro ls sid status periodEnd
    unfold updateBySub
    rw [List.forall₂_map_right_iff]
    apply List.forall₂_same.mpr
    intro x _
    by_cases hid : (x.stripe_subscription_id == sid) = true <;> simp [hid, frameEq]
  · intro ls sid
    unfold markPastDue
    rw [List.forall₂_map_right_iff]
    apply List.forall₂_same.mpr
    intro x _
    by_cases hid : (x.stripe_subscription_id == sid) = true <;> simp [hid, frameEq]

/-- Witness for C4: a subscription-updated replay with new status, period end
and session on a known subscription keeps the row's token `TOK` (and its id,
customer, subscription reference, tier). -/
theorem C4_witness :
    List.Forall₂ frameEq
        [⟨1, 1, "TOK", "active", "2098-01-01", "sub_1", "all-access", "cs_1"⟩]
        [⟨1, 1, "TOK", "canceled", "2099-01-01", "sub_1", "all-access", "cs_2"⟩] ∧
      (License.mk 1 1 "TOK" "canceled" "2099-01-01" "sub_1" "all-access" "cs_2").token =
        (License.mk 1 1 "TOK" "active" "2098-01-01" "sub_1" "all-access" "cs_1").token :=
  C4_token_never_rotated.1
    [⟨1, 1, "TOK", "active", "2098-01-01", "sub_1", "all-access", "cs_1"⟩]
    (LicenseArgs.mk 1 "sub_1" "canceled" "2099-01-01" "cs_2") "NEW" 9
    ⟨1, 1, "TOK", "active", "2098-01-01", "sub_1", "all-access", "cs_1"⟩ _ _ rfl rfl

/-- C5: Running the catalog builder a second time with identical inputs,
taking the first run's output as the prior snapshot, produces output
byte-identical to the first run's output: the merge–dedup–sort pipeline is a
fixed point on its own output (the serialized file is a function of this
list, and the seeded/generated items are deterministic constants). -/
theorem C5_builder_fixed_point (seeded generated prev : List Item) :
    builderRun seeded generated (builderRun seeded generated prev) =
      builderRun seeded generated prev := by
  unfold builderRun builderMerge
  exact sortUniq_fixedpoint builderKey builderLe builderLe_total builderLe_trans
    (seeded ++ generated) prev

/-! ## Lemmas: the validator pipeline -/

theorem cleanRecord_eq (i : Nat) (it : Json) (hne : it ≠ .null) :
    cleanRecord i it = some (cleanFields i it) := by
  cases it with
  | null => exact absurd rfl hne
  | bool b => rfl
  | num n => rfl
  | str s => rfl
  | arr xs => rfl
  | obj kvs => rfl

theorem cleanRecord_ne_null {i : Nat} {it : Json} {r : Item}
    (h : cleanRecord i it = some r) : it ≠ .null := by
  intro he
  subst he
  exact Option.noConfusion h

theorem cleanRecord_shape {i : Nat} {it : Json} {r : Item}
    (h : cleanRecord i it = some r) : r = cleanFields i it := by
  rw [cleanRecord_eq i it (cleanRecord_ne_null h)] at h
  exact (Option.some.inj h).symm

theorem cleanAll_cons (i : Nat) (x : Json) (xs : List Json) :
    cleanAll i (x :: xs) =
      (cleanRecord i x).bind fun r =>
        (cleanAll (i + 1) xs).bind fun rs => some (r :: rs) := rfl

theorem cleanAll_mem {l : List Json} :
    ∀ {i : Nat} {cl : List Item}, cleanAll i l = some cl →
      ∀ r ∈ cl, ∃ (j : Nat) (it : Json), cleanRecord j it = some r := by
  induction l with
  | nil =>
    intro i cl h r hr
    rw [show cleanAll i [] = some [] from rfl] at h
    rw [← Option.some.inj h] at hr
    exact absurd hr (List.not_mem_nil r)
  | cons x xs ih =>
    intro i cl h r hr
    rw [cleanAll_cons] at h
    rcases hx : cleanRecord i x with - | r₀ <;> rw [hx] at h
    · exact Option.noConfusion h
    · rcases hxs : cleanAll (i + 1) xs with - | rs <;> rw [hxs] at h
      · exact Option.noConfusion h
      · have hcl : r₀ :: rs = cl := Option.some.inj h
        rw [← hcl] at hr
        rcases List.mem_cons.mp hr with hre | hrs
        · exact ⟨i, x, hre ▸ hx⟩
        · exact ih hxs r hrs

theorem goodItem_iff (x : Item) : goodItem x = true ↔ x.title ≠ "" ∧ x.prompt ≠ "" := by
  unfold goodItem
  rw [Bool.and_eq_true, Bool.not_eq_true', Bool.not_eq_true']
  constructor
  · intro ⟨h₁, h₂⟩
    exact ⟨fun he => by rw [he] at h₁; exact Bool.noConfusion h₁,
      fun he => by rw [he] at h₂; exact Bool.noConfusion h₂⟩
  · intro ⟨h₁, h₂⟩
    exact ⟨Bool.eq_false_iff.mpr (fun hb => h₁ ((String.isEmpty_iff _).mp hb)),
      Bool.eq_false_iff.mpr (fun hb => h₂ ((String.isEmpty_iff _).mp hb))⟩

theorem validatorPipeline_eq {l : List Json} {out : List Item} :
    validatorPipeline l = some out ↔
      ∃ cl, cleanAll 0 l = some cl ∧
        out = List.insertionSort validatorLe (uniqBy validatorKey (cl.filter goodItem)) := by
  unfold validatorPipeline
  cases h : cleanAll 0 l with
  | none => simp
  | some cl => simp [eq_comm]

theorem getField_itemToJson_id (r : Item) :
    (itemToJson r).getField "id" = some (.str r.id) := rfl

theorem getField_itemToJson_category (r : Item) :
    (itemToJson r).getField "category" = some (.str r.category) := rfl

theorem getField_itemToJson_title (r : Item) :
    (itemToJson r).getField "title" = some (.str r.title) := rfl

theorem getField_itemToJson_tags (r : Item) :
    (itemToJson r).getField "tags" = some (.arr (r.tags.map .str)) := rfl

theorem getField_itemToJson_rating (r : Item) :
    (itemToJson r).getField "rating" = some (.num r.rating) := rfl

theorem getField_itemToJson_price (r : Item) :
    (itemToJson r).getField "price" = some (.num r.price) := rfl

theorem getField_itemToJson_buyUrl (r : Item) :
    (itemToJson r).getField "buyUrl" = some (.str r.buyUrl) := rfl

theorem getField_itemToJson_prompt (r : Item) :
    (itemToJson r).getField "prompt" = some (.str r.prompt) := rfl

theorem fieldOr_of_getField_str {it : Json} {k s : String}
    (h : it.getField k = some (.str s)) (d : String) :
    fieldOr it k d = if s.isEmpty then d else s := by
  unfold fieldOr
  rw [h]
  show (if jsTruthy (.str s) then jsToString (.str s) else d) = if s.isEmpty then d else s
  by_cases hs : s.isEmpty <;> simp [jsTruthy, jsToString, hs]

theorem cleanFields_obj (i : Nat) (y : List (String × Json)) :
    cleanFields i (Json.obj y) =
      { id := fieldOr (Json.obj y) "id" ("id-" ++ toString i)
        category := fieldOr (Json.obj y) "category" "General"
        title := fieldOr (Json.obj y) "title" "Untitled"
        tags := match (Json.obj y).getField "tags" with
          | some (.arr xs) => xs.map jsToString
          | _ => []
        rating := match (Json.obj y).getField "rating" with
          | some (.num n) => n
          | _ => 5
        price := match (Json.obj y).getField "price" with
          | some (.num n) => n
          | _ => 99
        buyUrl := jsTrim (fieldOr (Json.obj y) "buyUrl" "")
        prompt := jsTrim (fieldOr (Json.obj y) "prompt" "") } := rfl

theorem cleanRecord_itemToJson (i : Nat) (r : Item) (hid : r.id ≠ "")
    (hcat : r.category ≠ "") (htitle : r.title ≠ "")
    (hbuy : jsTrim r.buyUrl = r.buyUrl) (hpr : jsTrim r.prompt = r.prompt) :
    cleanRecord i (itemToJson r) = some r := by
  have hids : r.id.isEmpty = false :=
    Bool.eq_false_iff.mpr (fun h => hid ((String.isEmpty_iff r.id).mp h))
  have hcats : r.category.isEmpty = false :=
    Bool.eq_false_iff.mpr (fun h => hcat ((String.isEmpty_iff r.category).mp h))
  have htitles : r.title.isEmpty = false :=
    Bool.eq_false_iff.mpr (fun h => htitle ((String.isEmpty_iff r.title).mp h))
  have e1 : fieldOr (itemToJson r) "id" ("id-" ++ toString i) = r.id := by
    rw [fieldOr_of_getField_str (getField_itemToJson_id r), hids]
    simp
  have e2 : fieldOr (itemToJson r) "category" "General" = r.category := by
    rw [fieldOr_of_getField_str (getField_itemToJson_category r), hcats]
    simp
  have e3 : fieldOr (itemToJson r) "title" "Untitled" = r.title := by
    rw [fieldOr_of_getField_str (getField_itemToJson_title r), htitles]
    simp
  have e7 : jsTrim (fieldOr (itemToJson r) "buyUrl" "") = r.buyUrl := by
    rw [fieldOr_of_getField_str (getField_itemToJson_buyUrl r)]
    by_cases hb : r.buyUrl.isEmpty
    · rw [if_pos hb, (String.isEmpty_iff r.buyUrl).mp hb]
      rfl
    · rw [if_neg hb]
      exact hbuy
  have e8 : jsTrim (fieldOr (itemToJson r) "prompt" "") = r.prompt := by
    rw [fieldOr_of_getField_str (getField_itemToJson_prompt r)]
    by_cases hb : r.prompt.isEmpty
    · rw [if_pos hb, (String.isEmpty_iff r.prompt).mp hb]
      rfl
    · rw [if_neg hb]
      exact hpr
  have e4 : (match (itemToJson r).getField "tags" with
      | some (.arr xs) => xs.map jsToString
      | _ => []) = r.tags := by
    rw [getField_itemToJson_tags]
    show (r.tags.map Json.str).map jsToString = r.tags
    rw [List.map_map]
    have hcomp : jsToString ∘ Json.str = id := by
      funext s
      rfl
    rw [hcomp, List.map_id]
  have e5 : (match (itemToJson r).getField "rating" with
      | some (.num n) => n
      | _ => 5) = r.rating := by
    rw [getField_itemToJson_rating]
  have e6 : (match (itemToJson r).getField "price" with
      | some (.num n) => n
      | _ => 99) = r.price := by
    rw [getField_itemToJson_price]
  have hobj : itemToJson r = Json.obj [("id", .str r.id), ("category", .str r.category),
      ("title", .str r.title), ("tags", .arr (r.tags.map .str)), ("rating", .num r.rating),
      ("price", .num r.price), ("buyUrl", .str r.buyUrl), ("prompt", .str r.prompt)] := rfl
  rw [hobj] at e1 e2 e3 e4 e5 e6 e7 e8 ⊢
  rw [cleanRecord_eq _ _ (fun h => Json.noConfusion h), cleanFields_obj,
    e1, e2, e3, e4, e5, e6, e7, e8]

theorem cleanAll_map_itemToJson :
    ∀ (rs : List Item) (i : Nat),
      (∀ r ∈ rs, r.id ≠ "" ∧ r.category ≠ "" ∧ r.title ≠ "" ∧
        jsTrim r.buyUrl = r.buyUrl ∧ jsTrim r.prompt = r.prompt) →
      cleanAll i (rs.map itemToJson) = some rs := by
  intro rs
  induction rs with
  | nil => intro i _; rfl
  | cons r rs ih =>
    intro i h
    obtain ⟨h1, h2, h3, h4, h5⟩ := h r (List.mem_cons_self r rs)
    rw [List.map_cons, cleanAll_cons, cleanRecord_itemToJson i r h1 h2 h3 h4 h5,
      ih (i + 1) (fun x hx => h x (List.mem_cons_of_mem r hx))]
    rfl

/-- C6 counterexample: the claim says a record lacking a title is dropped,
but the validator substitutes the default `"Untitled"` and keeps it — the
input record `{prompt: "P"}` has no title field, yet it survives with title
`"Untitled"`. -/
theorem C6_counterexample_missing_title_kept :
    (Json.obj [("prompt", Json.str "P")]).getField "title" = none ∧
      validatorPipeline [Json.obj [("prompt", Json.str "P")]] =
        some [⟨"id-0", "General", "Untitled", [], 5, 99, "", "P"⟩] :=
  ⟨rfl, rfl⟩

/-- C6 (amended): for every input record, the validator drops the record
exactly when its coerced title or coerced body is empty — a record lacking a
title field is kept with the default title `"Untitled"`, while a record
lacking a body is dropped — collapses records whose coerced (title, body)
agree case-insensitively into one, and writes the surviving records sorted by
(category, title). -/
theorem C6_validator_clean_filter_dedup_sort (l : List Json) (cl out : List Item)
    (hcl : cleanAll 0 l = some cl) (hout : validatorPipeline l = some out) :
    (∀ r ∈ out, r.title ≠ "" ∧ r.prompt ≠ "") ∧
      (out.map validatorKey).Nodup ∧
      List.Pairwise validatorLe out ∧
      (∀ c ∈ cl, goodItem c = true → ∃ r ∈ out, validatorKey r = validatorKey c) ∧
      ∀ (i : Nat) (it : Json), it ≠ Json.null → it.getField "title" = none →
        (cleanRecord i it).map Item.title = some "Untitled" := by
  obtain ⟨cl', hcl', hdef⟩ := validatorPipeline_eq.mp hout
  rw [hcl] at hcl'
  have hcleq : cl = cl' := Option.some.inj hcl'
  subst hcleq
  subst hdef
  refine ⟨?_, ?_, ?_, ?_, ?_⟩
  · intro r hr
    have hf : r ∈ cl.filter goodItem :=
      mem_of_mem_uniqByAux ((List.mem_insertionSort validatorLe).mp hr)
    exact (goodItem_iff r).mp (List.of_mem_filter hf)
  · exact (((List.perm_insertionSort validatorLe _).map validatorKey).nodup_iff).mpr
      (nodup_keys_uniqByAux validatorKey [] _)
  · haveI : IsTotal Item validatorLe := ⟨validatorLe_total⟩
    haveI : IsTrans Item validatorLe := ⟨validatorLe_trans⟩
    exact List.sorted_insertionSort validatorLe _
  · intro c hc hgood
    have hcf : c ∈ cl.filter goodItem := List.mem_filter.mpr ⟨hc, hgood⟩
    obtain ⟨y, hy, hky⟩ := exists_key_rep_uniqByAux hcf (List.not_mem_nil _)
    exact ⟨y, (List.mem_insertionSort validatorLe).mpr hy, hky⟩
  · intro i it hne hfield
    rw [cleanRecord_eq i it hne]
    show some (fieldOr it "title" "Untitled") = some "Untitled"
    unfold fieldOr
    rw [hfield]

/-- Witness for C6 at a concrete snapshot: two records whose (title, body)
differ only in case collapse to one output record with nonempty title and
body, in sorted order. -/
theorem C6_witness :
    (∀ r ∈ [(⟨"id-0", "General", "B", [], 5, 99, "", "x"⟩ : Item)],
        r.title ≠ "" ∧ r.prompt ≠ "") ∧
      (([(⟨"id-0", "General", "B", [], 5, 99, "", "x"⟩ : Item)]).map validatorKey).Nodup ∧
      List.Pairwise validatorLe [(⟨"id-0", "General", "B", [], 5, 99, "", "x"⟩ : Item)] ∧
      (∀ c ∈ [(⟨"id-0", "General", "B", [], 5, 99, "", "x"⟩ : Item),
          ⟨"id-1", "General", "b", [], 5, 99, "", "X"⟩],
        goodItem c = true →
          ∃ r ∈ [(⟨"id-0", "General", "B", [], 5, 99, "", "x"⟩ : Item)],
            validatorKey r = validatorKey c) ∧
      ∀ (i : Nat) (it : Json), it ≠ Json.null → it.getField "title" = none →
        (cleanRecord i it).map Item.title = some "Untitled" :=
  C6_validator_clean_filter_dedup_sort
    [Json.obj [("title", Json.str "B"), ("prompt", Json.str "x")],
      Json.obj [("title", Json.str "b"), ("prompt", Json.str "X")]]
    [⟨"id-0", "General", "B", [], 5, 99, "", "x"⟩,
      ⟨"id-1", "General", "b", [], 5, 99, "", "X"⟩]
    [⟨"id-0", "General", "B", [], 5, 99, "", "x"⟩] rfl rfl

/-- C7 counterexample: two items whose (title, body) differ only in letter
case (so the validator key identifies them) are NOT identified by the
builder's merge — its key omits `toLowerCase()`, so both survive the merge. -/
theorem C7_counterexample_builder_case_sensitive :
    validatorKey ⟨"1", "G", "Alpha", [], 5, 99, "", "Body"⟩ =
        validatorKey ⟨"2", "G", "alpha", [], 5, 99, "", "body"⟩ ∧
      builderMerge [⟨"1", "G", "Alpha", [], 5, 99, "", "Body"⟩] []
          [⟨"2", "G", "alpha", [], 5, 99, "", "body"⟩] =
        [⟨"1", "G", "Alpha", [], 5, 99, "", "Body"⟩,
          ⟨"2", "G", "alpha", [], 5, 99, "", "body"⟩] :=
  ⟨rfl, rfl⟩

/-- C7 (amended): the validator identifies two items as duplicates exactly
when their lower-cased `title::body` join strings agree (in particular
whenever title and body agree case-insensitively), while the builder's merge
identifies them exactly when the `title::body` join strings agree
case-SENSITIVELY — items differing only in case are kept distinct by the
builder. -/
theorem C7_dedup_key_characterization :
    (∀ a b : Item, jsToLower a.title = jsToLower b.title →
        jsToLower a.prompt = jsToLower b.prompt → validatorKey a = validatorKey b) ∧
      ∀ a b : Item, builderKey a = builderKey b ↔
        a.title ++ "::" ++ a.prompt = b.title ++ "::" ++ b.prompt := by
  constructor
  · intro a b ht hp
    unfold validatorKey
    rw [jsToLower_append, jsToLower_append, jsToLower_append, jsToLower_append, ht, hp]
  · intro a b
    unfold builderKey
    rw [jsOrEmpty_eq, jsOrEmpty_eq, jsOrEmpty_eq, jsOrEmpty_eq]

/-- Witness for C7: the validator key identifies a concrete case-variant
pair. -/
theorem C7_witness :
    validatorKey ⟨"1", "G", "Foo", [], 5, 99, "", "Bar"⟩ =
      validatorKey ⟨"2", "H", "fOO", [], 4, 9, "", "baR"⟩ :=
  C7_dedup_key_characterization.1 ⟨"1", "G", "Foo", [], 5, 99, "", "Bar"⟩
    ⟨"2", "H", "fOO", [], 4, 9, "", "baR"⟩ (by decide) (by decide)

/-- C10 counterexample: the validator is not idempotent on every parsable
input: a record whose `id` is the truthy value `[]` coerces to the empty
string, and a second run replaces that empty `id` with the positional default
`"id-0"`, changing the output. -/
theorem C10_counterexample_not_idempotent :
    validatorPipeline [Json.obj [("id", Json.arr []), ("title", Json.str "T"),
        ("prompt", Json.str "P")]] =
      some [⟨"", "General", "T", [], 5, 99, "", "P"⟩] ∧
      validatorPipeline
          ([(⟨"", "General", "T", [], 5, 99, "", "P"⟩ : Item)].map itemToJson) =
        some [⟨"id-0", "General", "T", [], 5, 99, "", "P"⟩] ∧
      some [(⟨"id-0", "General", "T", [], 5, 99, "", "P"⟩ : Item)] ≠
        some [(⟨"", "General", "T", [], 5, 99, "", "P"⟩ : Item)] :=
  ⟨rfl, rfl, by decide⟩

/-- C10 (amended): the validator pipeline is idempotent on its own output for
every parsable input whose output records all have nonempty `id` and
`category` (equivalently, no input record carries a truthy `id`/`category`
that coerces to the empty string): re-running the clean–filter–dedup–sort
pipeline on the serialized output returns it unchanged. -/
theorem C10_validator_idempotent_on_good_output (l : List Json) (out : List Item)
    (hout : validatorPipeline l = some out)
    (hids : ∀ r ∈ out, r.id ≠ "" ∧ r.category ≠ "") :
    validatorPipeline (out.map itemToJson) = some out := by
  obtain ⟨cl, hcl, hdef⟩ := validatorPipeline_eq.mp hout
  have hmem_filter : ∀ r ∈ out, r ∈ cl.filter goodItem := by
    intro r hr
    rw [hdef] at hr
    exact mem_of_mem_uniqByAux ((List.mem_insertionSort validatorLe).mp hr)
  have hgood : ∀ r ∈ out, goodItem r = true := fun r hr =>
    List.of_mem_filter (hmem_filter r hr)
  have htrims : ∀ r ∈ out, jsTrim r.buyUrl = r.buyUrl ∧ jsTrim r.prompt = r.prompt := by
    intro r hr
    obtain ⟨j, it, hcleanr⟩ :=
      cleanAll_mem hcl r (List.mem_of_mem_filter (hmem_filter r hr))
    have hshape := cleanRecord_shape hcleanr
    rw [hshape]
    constructor
    · show jsTrim (jsTrim (fieldOr it "buyUrl" "")) = jsTrim (fieldOr it "buyUrl" "")
      exact jsTrim_idem _
    · show jsTrim (jsTrim (fieldOr it "prompt" "")) = jsTrim (fieldOr it "prompt" "")
      exact jsTrim_idem _
  have hnodup : (out.map validatorKey).Nodup := by
    rw [hdef]
    exact (((List.perm_insertionSort validatorLe _).map validatorKey).nodup_iff).mpr
      (nodup_keys_uniqByAux validatorKey [] _)
  have hsorted : List.Sorted validatorLe out := by
    rw [hdef]
    haveI : IsTotal Item validatorLe := ⟨validatorLe_total⟩
    haveI : IsTrans Item validatorLe := ⟨validatorLe_trans⟩
    exact List.sorted_insertionSort validatorLe _
  rw [validatorPipeline_eq]
  refine ⟨out, cleanAll_map_itemToJson out 0 ?_, ?_⟩
  · intro r hr
    obtain ⟨h1, h2⟩ := hids r hr
    obtain ⟨h3, -⟩ := (goodItem_iff r).mp (hgood r hr)
    obtain ⟨h4, h5⟩ := htrims r hr
    exact ⟨h1, h2, h3, h4, h5⟩
  · rw [List.filter_eq_self.mpr hgood, uniqBy_eq_self hnodup]
    exact hsorted.insertionSort_eq.symm

/-- Witness for C10: re-running the validator on the serialized output of a
concrete run reproduces it exactly. -/
theorem C10_witness :
    validatorPipeline
        ([(⟨"id-0", "General", "T", [], 5, 99, "", "P"⟩ : Item)].map itemToJson) =
      some [⟨"id-0", "General", "T", [], 5, 99, "", "P"⟩] :=
  C10_validator_idempotent_on_good_output
    [Json.obj [("title", Json.str "T"), ("prompt", Json.str "P")]]
    [⟨"id-0", "General", "T", [], 5, 99, "", "P"⟩] rfl (by decide)

end PFStore
